import Mathlib

/-!
Shallow embedding of `src/blockchain.py` (classes `Block` and `Blockchain`).

Modelling decisions, each forced by the Python semantics of the source:

* The SHA-256 hex digest is modelled by a parameter `H : String → String`
  applied to the concatenation of the UTF-8 encoded pieces that the source
  feeds to `hashlib.sha256` via successive `update` calls (the digest of a
  byte stream equals the digest of the concatenation of its chunks).  All
  theorems are proved for every `H`, which is strictly stronger than proving
  them for SHA-256 in particular; `sampleDigest` is a concrete instantiation
  used by closed witness statements.

* `json.dumps` on a Python `dict` is deterministic and preserves insertion
  order; payloads in this repository are flat string-keyed objects with
  integer or string values, modelled by `Json` / `Data` and `dumps`.

* Python class `Block` defines no `__eq__`, so `!=` between two `Block`
  objects (used by `Blockchain.get_root`) is object identity.  Identity is
  modelled by an extra field `oid` holding a unique allocation number; every
  operation that allocates Python objects (`Block(...)`, `copy.deepcopy`)
  takes and returns a `Nat` allocation counter and stamps fresh `oid`s.
  `copy.deepcopy` copies every field verbatim (it does not rerun
  `__init__`), so the deep copy of a block differs from the original only
  in its `oid`.

* `datetime`-derived timestamps are strings produced by the ambient clock;
  they are modelled as explicit `String` arguments, compared with the
  lexicographic order that Python uses on `str` (Mathlib's `LinearOrder`
  on `String`).
-/

namespace EETC

/-- JSON values occurring in this repository's payloads. -/
inductive Json where
  | jnum (n : Int)
  | jstr (s : String)
deriving DecidableEq, Repr

/-- A Python `dict` payload: an insertion-ordered list of key/value pairs. -/
abbrev Data := List (String × Json)

/-- Serialization of one JSON value, as `json.dumps` renders it. -/
def Json.dump : Json → String
  | .jnum n => toString n
  | .jstr s => "\"" ++ s ++ "\""

/-- `json.dumps` on a flat object: `\x7b"k": v, ...\x7d` with the source
dict's insertion order. -/
def dumps (d : Data) : String :=
  "\x7b" ++ String.intercalate ", "
      (d.map (fun kv => "\"" ++ kv.1 ++ "\": " ++ kv.2.dump)) ++ "\x7d"

/-- Class `Block` (src/blockchain.py:8-40).  Fields `index`, `timestamp`,
`data`, `previous_hash`, `hash` are the Python attributes; `oid` is the
object's identity (see the header comment). -/
structure Block where
  index : Nat
  timestamp : String
  data : Data
  previous_hash : String
  hash : String
  oid : Nat
deriving DecidableEq, Repr, Inhabited

/-- `Block.generate_hash` (src/blockchain.py:28-40): digest of the
concatenation of `str(index)`, `timestamp`, `json.dumps(data)` and
`previous_hash`. -/
def Block.generate_hash (H : String → String) (b : Block) : String :=
  H (toString b.index ++ b.timestamp ++ dumps b.data ++ b.previous_hash)

/-- `Block.__init__` (src/blockchain.py:9-23): stores the four fields and
computes `hash = self.generate_hash()`.  `oid` is the fresh identity of the
new object. -/
def Block.make (H : String → String) (index : Nat) (timestamp : String)
    (data : Data) (previous_hash : String) (oid : Nat) : Block :=
  let b : Block := { index, timestamp, data, previous_hash, hash := "", oid }
  { b with hash := b.generate_hash H }

/-- Value equality of two blocks: all Python attributes agree (the identity
`oid` may differ).  This is the "full value equality of all fields" notion
the spec speaks about. -/
def Block.sameValue (a b : Block) : Prop :=
  a.index = b.index ∧ a.timestamp = b.timestamp ∧ a.data = b.data ∧
    a.previous_hash = b.previous_hash ∧ a.hash = b.hash

instance (a b : Block) : Decidable (a.sameValue b) := by
  unfold Block.sameValue; infer_instance

/-- Class `Blockchain` (src/blockchain.py:43-150): a list of blocks. -/
structure Blockchain where
  blocks : List Block
deriving DecidableEq, Repr, Inhabited

/-- `len(self.blocks)` — the `length` property (src/blockchain.py:115-117). -/
def Blockchain.length (c : Blockchain) : Nat := c.blocks.length

/-- `self.blocks[-1]` — the `latest_block` property (src/blockchain.py:119-121);
chains built through the public API are never empty. -/
def Blockchain.latest_block (c : Blockchain) : Block :=
  c.blocks.getD (c.blocks.length - 1) default

/-- Payload of the genesis block (src/blockchain.py:66). -/
def genesis_data : Data :=
  [("author", .jstr "Stefan Delic"), ("message", .jstr "Hello world.")]

/-- `Blockchain._generate_genesis_block` (src/blockchain.py:58-68). -/
def generate_genesis_block (H : String → String) (ts : String) (σ : Nat) : Block :=
  Block.make H 0 ts genesis_data "Liberate my madness..." σ

/-- `Blockchain.__init__` (src/blockchain.py:44-48): a fresh chain holding
exactly the genesis block.  `ts` is the wall-clock timestamp, `σ` the
allocation counter. -/
def Blockchain.init (H : String → String) (ts : String) (σ : Nat) :
    Blockchain × Nat :=
  (⟨[generate_genesis_block H ts σ]⟩, σ + 1)

/-- `Blockchain.insert_block` (src/blockchain.py:70-85): appends
`Block(len(self.blocks), now, data, self.blocks[-1].hash)`. -/
def Blockchain.insert_block (H : String → String) (ts : String) (data : Data)
    (c : Blockchain) (σ : Nat) : Blockchain × Nat :=
  (⟨c.blocks ++ [Block.make H c.blocks.length ts data c.latest_block.hash σ]⟩,
    σ + 1)

/-- One iteration of the `validate` loop (src/blockchain.py:95-107): the four
checks in source order, each clearing the flag and appending its message. -/
def validateStep (H : String → String) (c : Blockchain)
    (acc : Bool × List String) (i : Nat) : Bool × List String :=
  let bi := c.blocks.getD i default
  let bp := c.blocks.getD (i - 1) default
  let acc := if bi.index ≠ i then
    (false, acc.2 ++ ["Wrong block index at block " ++ toString i ++ "."]) else acc
  let acc := if bp.hash ≠ bi.previous_hash then
    (false, acc.2 ++ ["Wrong previous hash at block " ++ toString i ++ "."]) else acc
  let acc := if bi.hash ≠ bi.generate_hash H then
    (false, acc.2 ++ ["Wrong hash at block " ++ toString i ++ "."]) else acc
  let acc := if bp.timestamp ≥ bi.timestamp then
    (false, acc.2 ++ ["Backdating at block " ++ toString i ++ "."]) else acc
  acc

/-- `Blockchain.validate` (src/blockchain.py:87-109): fold of the loop body
over `range(1, len(self.blocks))`, starting from `(True, [])`. -/
def Blockchain.validate (H : String → String) (c : Blockchain) :
    Bool × List String :=
  (List.range' 1 (c.blocks.length - 1)).foldl (validateStep H c) (true, [])

/-- Python slicing `l[:upto]` for an arbitrary (possibly negative) `upto`. -/
def pySliceTo (l : List α) (upto : Int) : List α :=
  if 0 ≤ upto then l.take upto.toNat else l.take (l.length - (-upto).toNat)

/-- `copy.deepcopy` on the block list: each block is copied field-by-field
into a fresh object (fresh `oid`); `__init__` is not rerun, so the stored
`hash` is copied verbatim. -/
def deepcopyBlocks : List Block → Nat → List Block
  | [], _ => []
  | b :: bs, σ => { b with oid := σ } :: deepcopyBlocks bs (σ + 1)

/-- `Blockchain.fork` (src/blockchain.py:123-135): deep-copy the whole chain,
then, when `upto` is truthy (`upto ≠ 0`), rebind `blocks` to `blocks[:upto]`.
The counter advances by the number of blocks deep-copied. -/
def Blockchain.fork (c : Blockchain) (upto : Int) (σ : Nat) :
    Blockchain × Nat :=
  let copied := deepcopyBlocks c.blocks σ
  (if upto = 0 then ⟨copied⟩ else ⟨pySliceTo copied upto⟩,
    σ + c.blocks.length)

/-- `Blockchain.fork` called with no argument: the source's default is
`upto = -1` (src/blockchain.py:123). -/
def Blockchain.fork_default (c : Blockchain) (σ : Nat) : Blockchain × Nat :=
  c.fork (-1) σ

/-- `Blockchain.get_root` (src/blockchain.py:137-150): scan
`range(1, min_len)` and return `self.fork(i)` at the first `i` where
`self.blocks[i] != child_chain.blocks[i]`; Python's `!=` on `Block` objects
is object identity (no `__eq__` is defined), i.e. `oid` comparison.  If no
index differs, return `self.fork(min_len)`. -/
def Blockchain.get_root (c child_chain : Blockchain) (σ : Nat) :
    Blockchain × Nat :=
  let min_len := min c.length child_chain.length
  match (List.range' 1 (min_len - 1)).find?
      (fun i => (c.blocks.getD i default).oid !=
        (child_chain.blocks.getD i default).oid) with
  | some i => c.fork (i : Int) σ
  | none => c.fork (min_len : Int) σ

/-- A concrete digest function used to instantiate `H` in closed witness
statements. -/
def sampleDigest : String → String := fun s => "#" ++ s

/-- The violations `validate` records at position `i`, in the fixed source
order: index continuity, hash linkage, digest recomputation, timestamp
monotonicity. -/
def checksAt (H : String → String) (c : Blockchain) (i : Nat) : List String :=
  let bi := c.blocks.getD i default
  let bp := c.blocks.getD (i - 1) default
  (if bi.index ≠ i then
    ["Wrong block index at block " ++ toString i ++ "."] else []) ++
  (if bp.hash ≠ bi.previous_hash then
    ["Wrong previous hash at block " ++ toString i ++ "."] else []) ++
  (if bi.hash ≠ bi.generate_hash H then
    ["Wrong hash at block " ++ toString i ++ "."] else []) ++
  (if bp.timestamp ≥ bi.timestamp then
    ["Backdating at block " ++ toString i ++ "."] else [])

/-- The full violation list: positions `1, …, len-1` in increasing order,
each contributing its `checksAt` group. -/
def validateSpec (H : String → String) (c : Blockchain) : List String :=
  (List.range' 1 (c.blocks.length - 1)).flatMap (checksAt H c)

lemma isEmpty_append (l1 l2 : List String) :
    (l1 ++ l2).isEmpty = (l1.isEmpty && l2.isEmpty) := by
  cases l1 <;> cases l2 <;> rfl

lemma validateStep_eq (H : String → String) (c : Blockchain)
    (acc : Bool × List String) (i : Nat) :
    validateStep H c acc i =
      (acc.1 && (checksAt H c i).isEmpty, acc.2 ++ checksAt H c i) := by
  obtain ⟨flag, errs⟩ := acc
  dsimp only [validateStep, checksAt]
  split_ifs <;> simp_all [isEmpty_append]

lemma validate_foldl (H : String → String) (c : Blockchain) (l : List Nat)
    (flag : Bool) (errs : List String) :
    l.foldl (validateStep H c) (flag, errs) =
      (flag && l.all (fun i => (checksAt H c i).isEmpty),
        errs ++ l.flatMap (checksAt H c)) := by
  induction l generalizing flag errs with
  | nil => simp
  | cons a t ih =>
      simp only [List.foldl_cons, validateStep_eq, ih, List.all_cons,
        List.flatMap_cons, Bool.and_assoc, List.append_assoc]

lemma isEmpty_flatMap (f : Nat → List String) (l : List Nat) :
    (l.flatMap f).isEmpty = l.all fun i => (f i).isEmpty := by
  induction l with
  | nil => rfl
  | cons a t ih => simp only [List.flatMap_cons, List.all_cons,
      isEmpty_append, ih]

/-- `validate` returns the exhaustive violation list together with the flag
that records whether that list is empty. -/
lemma validate_eq_spec (H : String → String) (c : Blockchain) :
    Blockchain.validate H c =
      ((validateSpec H c).isEmpty, validateSpec H c) := by
  unfold Blockchain.validate validateSpec
  rw [validate_foldl, isEmpty_flatMap]
  simp

/-- C4: `validate` runs all four checks at every position `1 … len-1` without
short-circuiting: its error list is exactly the concatenation, over the
positions in increasing order, of the per-position groups `checksAt`
(index-continuity, hash-linkage, digest-mismatch, timestamp-backdating, in
that fixed order), and its boolean is `true` iff that list is empty. -/
theorem validate_exhaustive_ordered (H : String → String) (c : Blockchain) :
    (Blockchain.validate H c).2 =
      (List.range' 1 (c.blocks.length - 1)).flatMap (checksAt H c) ∧
    ((Blockchain.validate H c).1 = true ↔ (Blockchain.validate H c).2 = []) := by
  rw [validate_eq_spec]
  refine ⟨rfl, ?_⟩
  simp [List.isEmpty_iff]

/-- C8: block hashing is deterministic.  Two blocks constructed from
identical `(index, timestamp, payload, previous_hash)` — even with distinct
identities — carry identical `hash` fields, and `generate_hash` depends on
nothing but those four fields. -/
theorem hash_deterministic (H : String → String) :
    (∀ (i : Nat) (t : String) (d : Data) (p : String) (o1 o2 : Nat),
      (Block.make H i t d p o1).hash = (Block.make H i t d p o2).hash) ∧
    (∀ b b' : Block, b.index = b'.index → b.timestamp = b'.timestamp →
      b.data = b'.data → b.previous_hash = b'.previous_hash →
      b.generate_hash H = b'.generate_hash H) := by
  constructor
  · intro i t d p o1 o2
    rfl
  · intro b b' h1 h2 h3 h4
    unfold Block.generate_hash
    rw [h1, h2, h3, h4]

lemma deepcopyBlocks_length (l : List Block) (σ : Nat) :
    (deepcopyBlocks l σ).length = l.length := by
  induction l generalizing σ with
  | nil => rfl
  | cons b bs ih => simp [deepcopyBlocks, ih]

lemma deepcopyBlocks_sameValue (l : List Block) (σ : Nat) :
    List.Forall₂ Block.sameValue (deepcopyBlocks l σ) l := by
  induction l generalizing σ with
  | nil => exact List.Forall₂.nil
  | cons b bs ih =>
      exact List.Forall₂.cons ⟨rfl, rfl, rfl, rfl, rfl⟩ (ih (σ + 1))

/-- C6: a truncating fork `fork k` with `1 ≤ k < length` yields a chain of
length exactly `k` whose blocks are value-equal to the first `k` blocks of
the original. -/
theorem fork_truncates (c : Blockchain) (k : Int) (σ : Nat)
    (h1 : 1 ≤ k) (h2 : k < (c.length : Int)) :
    (((c.fork k σ).1.length : Int) = k ∧
      List.Forall₂ Block.sameValue (c.fork k σ).1.blocks
        (c.blocks.take k.toNat)) := by
  have hk0 : k ≠ 0 := by omega
  have hkp : 0 ≤ k := by omega
  have hfork : (c.fork k σ).1 = ⟨(deepcopyBlocks c.blocks σ).take k.toNat⟩ := by
    simp only [Blockchain.fork, pySliceTo, if_neg hk0, if_pos hkp]
  rw [hfork]
  constructor
  · show (((deepcopyBlocks c.blocks σ).take k.toNat).length : Int) = k
    rw [List.length_take, deepcopyBlocks_length]
    simp only [Blockchain.length] at h2
    omega
  · exact List.forall₂_take k.toNat (deepcopyBlocks_sameValue c.blocks σ)

/-- A two-block chain used by closed witness statements. -/
def wChain : Blockchain :=
  (Blockchain.insert_block sampleDigest "t1" [("v", .jnum 1)]
    (Blockchain.init sampleDigest "t0" 0).1 1).1

/-- Witness for `fork_truncates` on a concrete two-block chain. -/
theorem fork_truncates_witness :
    (1 : Int) ≤ 1 ∧ (1 : Int) < (wChain.length : Int) ∧
    ((wChain.fork 1 5).1.length : Int) = 1 ∧
    List.Forall₂ Block.sameValue (wChain.fork 1 5).1.blocks
      (wChain.blocks.take (1 : Int).toNat) := by
  have h := fork_truncates wChain 1 5 (by decide) (by decide)
  exact ⟨by decide, by decide, h.1, h.2⟩

/-- C7: `fork 0` — a falsy truncation argument — copies the entire chain
(`if upto:` skips the slice): same length, value-equal blocks. -/
theorem fork_zero_copies_whole (c : Blockchain) (σ : Nat) :
    (c.fork 0 σ).1.length = c.length ∧
    List.Forall₂ Block.sameValue (c.fork 0 σ).1.blocks c.blocks := by
  have h : (c.fork 0 σ).1 = ⟨deepcopyBlocks c.blocks σ⟩ := by
    simp [Blockchain.fork]
  rw [h]
  exact ⟨by simp [Blockchain.length, deepcopyBlocks_length],
    deepcopyBlocks_sameValue c.blocks σ⟩

lemma fork_pos_prefix (c : Blockchain) (n : Nat) (σ : Nat)
    (h1 : 1 ≤ n) (h2 : n ≤ c.blocks.length) :
    (c.fork ((n : Int)) σ).1.length = n ∧
    Block.sameValue ((c.fork ((n : Int)) σ).1.blocks.getD 0 default)
      (c.blocks.getD 0 default) := by
  have hk0 : ((n : Int)) ≠ 0 := by
    have : (0 : Int) < (n : Int) := by exact_mod_cast h1
    omega
  have hkp : (0 : Int) ≤ (n : Int) := by positivity
  have hfork : (c.fork ((n : Int)) σ).1 =
      ⟨(deepcopyBlocks c.blocks σ).take n⟩ := by
    simp only [Blockchain.fork, pySliceTo, if_neg hk0, if_pos hkp,
      Int.toNat_natCast]
  rw [hfork]
  obtain ⟨b, bs, hb⟩ := List.exists_cons_of_ne_nil
    (List.length_pos.mp (by omega) : c.blocks ≠ [])
  obtain ⟨m, rfl⟩ : ∃ m, n = m + 1 := ⟨n - 1, by omega⟩
  rw [hb] at h2 ⊢
  refine ⟨?_, ?_⟩
  · show ((deepcopyBlocks (b :: bs) σ).take (m + 1)).length = m + 1
    rw [List.length_take, deepcopyBlocks_length]
    simp only [List.length_cons] at h2 ⊢
    omega
  · show (((deepcopyBlocks (b :: bs) σ).take (m + 1)).getD 0 default).sameValue
      ((b :: bs).getD 0 default)
    simp only [deepcopyBlocks, List.take_succ_cons, List.getD_cons_zero]
    exact ⟨rfl, rfl, rfl, rfl, rfl⟩

lemma get_root_is_fork (c child : Blockchain) (σ : Nat)
    (h : 1 ≤ min c.length child.length) :
    ∃ n, 1 ≤ n ∧ n ≤ c.blocks.length ∧
      c.get_root child σ = c.fork ((n : Int)) σ := by
  have hc : c.length = c.blocks.length := rfl
  unfold Blockchain.get_root
  dsimp only
  split
  · next i hfind =>
      have hi := List.mem_range'_1.mp (List.mem_of_find?_eq_some hfind)
      exact ⟨i, hi.1, by omega, rfl⟩
  · next hfind =>
      exact ⟨min c.length child.length, h, by omega, rfl⟩

/-- C10: for any two nonempty chains, `get_root` returns a chain of length at
least 1 whose block 0 is a value-copy of the parent's genesis block — the
scan starts at index 1, so the genesis blocks are never compared. -/
theorem get_root_keeps_parent_genesis (parent child : Blockchain) (σ : Nat)
    (hp : parent.blocks ≠ []) (hc : child.blocks ≠ []) :
    1 ≤ (parent.get_root child σ).1.length ∧
    Block.sameValue ((parent.get_root child σ).1.blocks.getD 0 default)
      (parent.blocks.getD 0 default) := by
  have hm : 1 ≤ min parent.length child.length := by
    have h1 : 0 < parent.blocks.length := List.length_pos.mpr hp
    have h2 : 0 < child.blocks.length := List.length_pos.mpr hc
    simp only [Blockchain.length]
    omega
  obtain ⟨n, hn1, hn2, heq⟩ := get_root_is_fork parent child σ hm
  rw [heq]
  obtain ⟨hl, hs⟩ := fork_pos_prefix parent n σ hn1 hn2
  exact ⟨by omega, hs⟩

/-- Witness for `get_root_keeps_parent_genesis` on concrete chains. -/
theorem get_root_keeps_parent_genesis_witness :
    wChain.blocks ≠ [] ∧ (Blockchain.init sampleDigest "u0" 40).1.blocks ≠ [] ∧
    1 ≤ (wChain.get_root (Blockchain.init sampleDigest "u0" 40).1 50).1.length ∧
    Block.sameValue
      ((wChain.get_root (Blockchain.init sampleDigest "u0" 40).1 50).1.blocks.getD
        0 default)
      (wChain.blocks.getD 0 default) := by
  have h := get_root_keeps_parent_genesis wChain
    (Blockchain.init sampleDigest "u0" 40).1 50 (by decide) (by decide)
  exact ⟨by decide, by decide, h.1, h.2⟩

@[simp] lemma Block.make_index (H : String → String) (i : Nat) (t : String)
    (d : Data) (p : String) (o : Nat) : (Block.make H i t d p o).index = i := rfl

@[simp] lemma Block.make_timestamp (H : String → String) (i : Nat) (t : String)
    (d : Data) (p : String) (o : Nat) :
    (Block.make H i t d p o).timestamp = t := rfl

@[simp] lemma Block.make_previous_hash (H : String → String) (i : Nat)
    (t : String) (d : Data) (p : String) (o : Nat) :
    (Block.make H i t d p o).previous_hash = p := rfl

@[simp] lemma Block.make_generate_hash (H : String → String) (i : Nat)
    (t : String) (d : Data) (p : String) (o : Nat) :
    (Block.make H i t d p o).generate_hash H = (Block.make H i t d p o).hash :=
  rfl

lemma getD_concat_length (l : List Block) (b d : Block) :
    (l ++ [b]).getD l.length d = b := by
  rw [List.getD_append_right l [b] d l.length le_rfl]
  simp

lemma insert_block_latest (H : String → String) (ts : String) (d : Data)
    (c : Blockchain) (σ : Nat) :
    (Blockchain.insert_block H ts d c σ).1.latest_block =
      Block.make H c.blocks.length ts d c.latest_block.hash σ := by
  unfold Blockchain.insert_block Blockchain.latest_block
  dsimp only
  rw [List.length_append]
  simp only [List.length_cons, List.length_nil, Nat.add_sub_cancel]
  exact getD_concat_length _ _ _

/-- The freshly appended position passes all four checks when the clock
strictly advanced. -/
lemma checksAt_append_new (H : String → String) (c : Blockchain) (ts : String)
    (d : Data) (σ : Nat) (hne : c.blocks ≠ [])
    (hts : c.latest_block.timestamp < ts) :
    checksAt H (Blockchain.insert_block H ts d c σ).1 c.blocks.length = [] := by
  have hlen : 0 < c.blocks.length := List.length_pos.mpr hne
  unfold checksAt Blockchain.insert_block
  dsimp only
  rw [getD_concat_length, List.getD_append _ _ _ _ (by omega)]
  have hbp : c.blocks.getD (c.blocks.length - 1) default = c.latest_block := rfl
  rw [hbp]
  simp [not_le.mpr hts]

/-- Positions strictly before the appended one are checked against the same
blocks as before the append. -/
lemma checksAt_append_old (H : String → String) (c : Blockchain) (nb : Block)
    (i : Nat) (h : i < c.blocks.length) :
    checksAt H ⟨c.blocks ++ [nb]⟩ i = checksAt H c i := by
  unfold checksAt
  dsimp only
  rw [List.getD_append _ _ _ _ h, List.getD_append _ _ _ _ (by omega)]

lemma flatMap_congr_mem {l : List Nat} {f g : Nat → List String}
    (h : ∀ x ∈ l, f x = g x) : l.flatMap f = l.flatMap g := by
  induction l with
  | nil => rfl
  | cons a t ih => simp_all

lemma validateSpec_append (H : String → String) (ts : String) (d : Data)
    (c : Blockchain) (σ : Nat) (hne : c.blocks ≠ []) :
    validateSpec H (Blockchain.insert_block H ts d c σ).1 =
      validateSpec H c ++
        checksAt H (Blockchain.insert_block H ts d c σ).1 c.blocks.length := by
  obtain ⟨m, hm⟩ : ∃ m, c.blocks.length = m + 1 :=
    ⟨c.blocks.length - 1, by have := List.length_pos.mpr hne; omega⟩
  unfold validateSpec
  have hlen : (Blockchain.insert_block H ts d c σ).1.blocks.length =
      c.blocks.length + 1 := by
    unfold Blockchain.insert_block; simp
  rw [hlen, hm, Nat.add_sub_cancel, Nat.add_sub_cancel, List.range'_concat]
  rw [List.flatMap_append]
  congr 1
  · exact flatMap_congr_mem fun x hx => by
      have hx1 := List.mem_range'_1.mp hx
      show checksAt H ⟨c.blocks ++ [_]⟩ x = checksAt H c x
      exact checksAt_append_old H c _ x (by omega)
  · rw [List.flatMap_cons, List.flatMap_nil, List.append_nil]
    congr 1
    omega

/-- `__init__` followed by a sequence of `insert_block` calls; the `i`-th
step appends with timestamp `steps[i].1` and payload `steps[i].2`. -/
def buildChain (H : String → String) (ts0 : String)
    (steps : List (String × Data)) (σ : Nat) : Blockchain × Nat :=
  steps.foldl (fun r s => Blockchain.insert_block H s.1 s.2 r.1 r.2)
    (Blockchain.init H ts0 σ)

lemma build_preserves (H : String → String) (steps : List (String × Data)) :
    ∀ (c : Blockchain) (σ : Nat) (t : String), c.blocks ≠ [] →
      c.latest_block.timestamp = t → validateSpec H c = [] →
      (t :: steps.map Prod.fst).Chain' (· < ·) →
      validateSpec H (steps.foldl
        (fun r s => Blockchain.insert_block H s.1 s.2 r.1 r.2) (c, σ)).1 = [] := by
  induction steps with
  | nil => intro c σ t h1 h2 h3 _; exact h3
  | cons s rest ih =>
      intro c σ t h1 h2 h3 h4
      simp only [List.map_cons, List.chain'_cons] at h4
      have hlt : c.latest_block.timestamp < s.1 := h2 ▸ h4.1
      simp only [List.foldl_cons]
      apply ih (Blockchain.insert_block H s.1 s.2 c σ).1
        (Blockchain.insert_block H s.1 s.2 c σ).2 s.1
      · unfold Blockchain.insert_block; simp
      · rw [insert_block_latest]; rfl
      · rw [validateSpec_append H s.1 s.2 c σ h1, h3,
          checksAt_append_new H c s.1 s.2 σ h1 hlt]
        rfl
      · exact h4.2

lemma build_length_aux (H : String → String) (steps : List (String × Data)) :
    ∀ (c : Blockchain) (σ : Nat),
      (steps.foldl (fun r s => Blockchain.insert_block H s.1 s.2 r.1 r.2)
        (c, σ)).1.blocks.length = c.blocks.length + steps.length := by
  induction steps with
  | nil => intro c σ; rfl
  | cons s rest ih =>
      intro c σ
      simp only [List.foldl_cons, List.length_cons]
      rw [ih]
      unfold Blockchain.insert_block
      simp
      omega

/-- C5: after `__init__` and any sequence of `N` `insert_block` calls whose
timestamps strictly increase (the genesis timestamp included), `validate`
returns `(True, [])` and the chain has length `N + 1`. -/
theorem append_monotone_valid (H : String → String) (ts0 : String)
    (steps : List (String × Data)) (σ : Nat)
    (hts : (ts0 :: steps.map Prod.fst).Chain' (· < ·)) :
    (buildChain H ts0 steps σ).1.length = steps.length + 1 ∧
    Blockchain.validate H (buildChain H ts0 steps σ).1 = (true, []) := by
  constructor
  · show (buildChain H ts0 steps σ).1.blocks.length = steps.length + 1
    unfold buildChain
    rw [show Blockchain.init H ts0 σ =
        ((Blockchain.init H ts0 σ).1, (Blockchain.init H ts0 σ).2) from rfl]
    rw [build_length_aux]
    have h1 : (Blockchain.init H ts0 σ).1.blocks.length = 1 := rfl
    omega
  · have hspec : validateSpec H (buildChain H ts0 steps σ).1 = [] := by
      unfold buildChain
      rw [show Blockchain.init H ts0 σ =
          ((Blockchain.init H ts0 σ).1, (Blockchain.init H ts0 σ).2) from rfl]
      exact build_preserves H steps (Blockchain.init H ts0 σ).1
        (Blockchain.init H ts0 σ).2 ts0 (by simp [Blockchain.init]) rfl rfl hts
    rw [validate_eq_spec, hspec]
    rfl

/-- Witness for `append_monotone_valid`: two appends with increasing
timestamps on a fresh chain. -/
theorem append_monotone_valid_witness :
    ("t0" :: ([("t1", [("v", Json.jnum 1)]), ("t2", [("v", Json.jnum 2)])].map
      Prod.fst)).Chain' (· < ·) ∧
    (buildChain sampleDigest "t0"
      [("t1", [("v", Json.jnum 1)]), ("t2", [("v", Json.jnum 2)])] 0).1.length = 3 ∧
    Blockchain.validate sampleDigest
      (buildChain sampleDigest "t0"
        [("t1", [("v", Json.jnum 1)]), ("t2", [("v", Json.jnum 2)])] 0).1 =
      (true, []) := by
  have hchain : ("t0" :: ([("t1", [("v", Json.jnum 1)]),
      ("t2", [("v", Json.jnum 2)])].map Prod.fst)).Chain' (· < ·) := by
    simp only [List.map_cons, List.map_nil, List.chain'_cons,
      List.chain'_singleton, and_true, String.lt_iff_toList_lt]
    exact ⟨by decide, by decide⟩
  refine ⟨hchain, ?_⟩
  exact append_monotone_valid sampleDigest "t0"
    [("t1", [("v", Json.jnum 1)]), ("t2", [("v", Json.jnum 2)])] 0 hchain

/-- Witness for `hash_deterministic` at a concrete block pair. -/
theorem hash_deterministic_witness :
    (Block.make sampleDigest 0 "t" [] "p" 3).hash =
      (Block.make sampleDigest 0 "t" [] "p" 7).hash ∧
    (Block.make sampleDigest 0 "t" [] "p" 3).generate_hash sampleDigest =
      (Block.make sampleDigest 0 "t" [] "p" 7).generate_hash sampleDigest := by
  refine ⟨(hash_deterministic sampleDigest).1 0 "t" [] "p" 3 7, ?_⟩
  exact (hash_deterministic sampleDigest).2 _ _ rfl rfl rfl rfl

/-- C2 (code bug): the default `fork()` call does NOT copy the whole chain.
The source default `upto = -1` is truthy, so `if upto:` fires and the copy
is sliced to `blocks[:-1]`, dropping the last block.  In general the default
fork has length `length - 1`; on a fresh one-block chain it is empty. -/
theorem fork_default_drops_last :
    (∀ (c : Blockchain) (σ : Nat),
      (c.fork_default σ).1.length = c.length - 1) ∧
    (∀ (H : String → String) (ts : String) (σ : Nat),
      (Blockchain.init H ts σ).1.length = 1 ∧
      (Blockchain.fork_default (Blockchain.init H ts σ).1 (σ + 1)).1.length = 0) := by
  constructor
  · intro c σ
    simp only [Blockchain.fork_default, Blockchain.fork, pySliceTo,
      Blockchain.length]
    norm_num
    rw [deepcopyBlocks_length]
  · intro H ts σ
    exact ⟨rfl, rfl⟩

/-- The §8 scenario, parent side: fresh chain, then append payloads
`v: 1` and `v: 2` (timestamps `"t0" < "t1" < "t2"`). -/
def scenarioA3 (H : String → String) : Blockchain × Nat :=
  let r0 := Blockchain.init H "t0" 0
  let r1 := Blockchain.insert_block H "t1" [("v", .jnum 1)] r0.1 r0.2
  Blockchain.insert_block H "t2" [("v", .jnum 2)] r1.1 r1.2

/-- The §8 scenario: `B = A.fork()` (the source's default `upto = -1`). -/
def scenarioB (H : String → String) : Blockchain × Nat :=
  (scenarioA3 H).1.fork_default (scenarioA3 H).2

/-- The §8 scenario: append `v: 3` to `A`. -/
def scenarioA4 (H : String → String) : Blockchain × Nat :=
  Blockchain.insert_block H "t3" [("v", .jnum 3)] (scenarioA3 H).1
    (scenarioB H).2

/-- The §8 scenario: append `v: "X"` to `B`. -/
def scenarioB4 (H : String → String) : Blockchain × Nat :=
  Blockchain.insert_block H "t3" [("v", .jstr "X")] (scenarioB H).1
    (scenarioA4 H).2

/-- The §8 scenario: `A.get_root(B)`. -/
def scenarioRoot (H : String → String) : Blockchain :=
  ((scenarioA4 H).1.get_root (scenarioB4 H).1 (scenarioB4 H).2).1

/-- C1 (code bug): in the §8 scenario the ancestor computation returns a
chain of length 1 (the genesis copy), not the claimed length 3 — and the
fork `B` already has length 2, not 3.  Two source defects combine: the
default `fork()` drops the last block, and `get_root` compares blocks with
`!=`, which on `Block` objects is object identity, so the deep-copied
blocks of `B` differ from `A`'s at index 1 already. -/
theorem scenario8_root_is_genesis_only (H : String → String) :
    (scenarioB H).1.length = 2 ∧ (scenarioRoot H).length = 1 :=
  ⟨rfl, rfl⟩

/-- C3 scenario: `B = A.fork(2)` with nothing appended afterwards. -/
def scenarioBf2 (H : String → String) : Blockchain × Nat :=
  (scenarioA3 H).1.fork 2 (scenarioA3 H).2

/-- C3 (code bug): for `B = A.fork(2)` (an untouched fork of the length-3
chain `A`), `A.get_root(B)` returns a chain of length 1, not the full
overlapping prefix of length `min(3, 2) = 2`: `get_root`'s `!=` is object
identity and the fork's blocks are deep copies, so index 1 already
"differs". -/
theorem get_root_untouched_fork_not_min (H : String → String) :
    min (scenarioA3 H).1.length (scenarioBf2 H).1.length = 2 ∧
    ((scenarioA3 H).1.get_root (scenarioBf2 H).1 (scenarioBf2 H).2).1.length
      = 1 :=
  ⟨rfl, rfl⟩

/-- Heap of `Blockchain` objects, for the frame/aliasing claim: a Python
variable holds a reference to a chain object, modelled as an index
("handle") into `chains`.  `copy.deepcopy` inside `fork` allocates a
brand-new object — a fresh entry sharing no mutable state with the parent —
while `insert_block`'s `self.blocks.append(...)` mutates the object a
handle points at, in place. -/
structure World where
  chains : List Blockchain
  nextOid : Nat

/-- `c2 = c1.fork(upto)` at the heap level: allocate the deep copy as a new
object and return its handle; the parent entry is untouched. -/
def World.fork (w : World) (h : Nat) (upto : Int) : Nat × World :=
  let c := w.chains.getD h ⟨[]⟩
  let r := c.fork upto w.nextOid
  (w.chains.length, ⟨w.chains ++ [r.1], r.2⟩)

/-- `c.insert_block(data)` at the heap level: in-place mutation of the chain
object behind handle `h`. -/
def World.insert_block (H : String → String) (w : World) (h : Nat)
    (ts : String) (data : Data) : World :=
  let c := w.chains.getD h ⟨[]⟩
  let r := Blockchain.insert_block H ts data c w.nextOid
  ⟨w.chains.set h r.1, r.2⟩

/-- C9: fork independence.  After `c2 = c1.fork()` (handle
`(w.fork h (-1)).1`), appending a block to `c2` leaves the chain behind
`c1`'s handle `h` completely unchanged — same length, same block sequence,
same hashes — and symmetrically appending to `c1` leaves `c2` unchanged:
the deep copy shares no mutable state with its parent. -/
theorem fork_independence (H : String → String) (w : World) (h : Nat)
    (hh : h < w.chains.length) (ts1 ts2 : String) (d1 d2 : Data) :
    ((World.insert_block H (w.fork h (-1)).2 (w.fork h (-1)).1 ts1 d1).chains.getD
        h ⟨[]⟩ = (w.fork h (-1)).2.chains.getD h ⟨[]⟩) ∧
    ((World.insert_block H (w.fork h (-1)).2 h ts2 d2).chains.getD
        (w.fork h (-1)).1 ⟨[]⟩ =
      (w.fork h (-1)).2.chains.getD (w.fork h (-1)).1 ⟨[]⟩) := by
  have hne : h ≠ w.chains.length := by omega
  constructor
  · show ((((w.chains ++ [_]).set w.chains.length _).getD h ⟨[]⟩ :
        Blockchain) = (w.chains ++ [_]).getD h ⟨[]⟩)
    simp [List.getD_eq_getElem?_getD, List.getElem?_set_ne (Ne.symm hne),
      List.getElem?_append_left hh]
  · show ((((w.chains ++ [_]).set h _).getD w.chains.length ⟨[]⟩ :
        Blockchain) = (w.chains ++ [_]).getD w.chains.length ⟨[]⟩)
    simp [List.getD_eq_getElem?_getD, List.getElem?_set_ne hne]

/-- Witness for `fork_independence` on a concrete one-chain world. -/
theorem fork_independence_witness :
    (0 : Nat) < (World.mk [wChain] 10).chains.length ∧
    ((World.insert_block sampleDigest ((World.mk [wChain] 10).fork 0 (-1)).2
        (((World.mk [wChain] 10).fork 0 (-1)).1) "t9" []).chains.getD 0 ⟨[]⟩ =
      ((World.mk [wChain] 10).fork 0 (-1)).2.chains.getD 0 ⟨[]⟩) ∧
    ((World.insert_block sampleDigest ((World.mk [wChain] 10).fork 0 (-1)).2
        0 "t9" []).chains.getD (((World.mk [wChain] 10).fork 0 (-1)).1) ⟨[]⟩ =
      ((World.mk [wChain] 10).fork 0 (-1)).2.chains.getD
        (((World.mk [wChain] 10).fork 0 (-1)).1) ⟨[]⟩) := by
  have h := fork_independence sampleDigest (World.mk [wChain] 10) 0
    (by decide) "t9" "t9" [] []
  exact ⟨by decide, h.1, h.2⟩

end EETC
